import Mathlib

/-!
Verification of the smithay-egui adapter library.

Shallow embedding of the repository's core logic:
* `src/src/rendering/mod.rs` — GPU mesh painter (`GlState`): texture upload
  cache, damage-rectangle merging, scissor computation, mesh painting.
* `src/src/lib.rs` — frame orchestrator (`EguiState`): input event queue,
  keyboard focus bookkeeping, per-instance render buffer management.
* `src/src/input.rs` — event translator: `convert_key`, `convert_button`,
  `convert_modifiers`.

Modelling conventions:
* Rust `i32` coordinates become `Int` (no claim depends on 32-bit wraparound),
  `u32`/`usize` sizes become `Nat`.
* Rust `f64` geometry (the painter converts clip/damage rectangles to `f64`
  before intersecting and scaling) is modelled over `ℚ`; all concrete inputs
  used in the claims are small integers, where the two coincide exactly.
* GL side effects are reified as lists of emitted GL operations.
* A Rust `panic!`/`expect`/`unimplemented!`/underflowing unsigned subtraction
  is modelled by an `Option`-valued function returning `none`.
* The external keyboard-composition engine (libxkbcommon) is modelled as a
  log of fed key transitions together with an uninterpreted text-composition
  function `g` supplied as a parameter; the `cfg!(target_os = "macos")`
  compile-time switch is a `Bool` parameter `macos`.
-/

namespace SmithayEgui

/-! ## Geometry: `smithay::utils::Rectangle` over `i32` and `f64` -/

/-- `Rectangle<i32, Physical>`: location `(x, y)` plus size `(w, h)`. -/
structure IRect where
  x : Int
  y : Int
  w : Int
  h : Int
deriving DecidableEq

/-- `Rectangle::from_extemities(topleft, bottomright)`: location is the first
point, size is the componentwise difference. -/
def IRect.from_extemities (tlx tly brx bry : Int) : IRect :=
  ⟨tlx, tly, brx - tlx, bry - tly⟩

/-- `Rectangle::overlaps`: the rectangle is not strictly outside the other
(closed-rectangle test, matching the smithay revision this code pins). -/
def IRect.overlaps (a b : IRect) : Bool :=
  !(a.x + a.w < b.x || a.x > b.x + b.w || a.y + a.h < b.y || a.y > b.y + b.h)

/-- `Rectangle::merge`: bounding box of the two rectangles. -/
def IRect.merge (a b : IRect) : IRect :=
  IRect.from_extemities (min a.x b.x) (min a.y b.y)
    (max (a.x + a.w) (b.x + b.w)) (max (a.y + a.h) (b.y + b.h))

/-- Membership of an integer point in the half-open pixel region
`[x, x+w) × [y, y+h)` covered by a rectangle. -/
def IRect.containsPt (r : IRect) (p : Int × Int) : Bool :=
  decide (r.x ≤ p.1) && decide (p.1 < r.x + r.w) &&
    decide (r.y ≤ p.2) && decide (p.2 < r.y + r.h)

/-- A point is covered by a list of rectangles if some rectangle contains it. -/
def coveredBy (l : List IRect) (p : Int × Int) : Bool :=
  l.any (fun r => r.containsPt p)

/-- `Rectangle<f64, _>`: the painter's floating-point rectangles, over `ℚ`. -/
structure QRect where
  x : ℚ
  y : ℚ
  w : ℚ
  h : ℚ
deriving DecidableEq

/-- `Rectangle::<f64>::from_extemities`. -/
def QRect.from_extemities (tlx tly brx bry : ℚ) : QRect :=
  ⟨tlx, tly, brx - tlx, bry - tly⟩

/-- `Rectangle::<f64>::overlaps`, same closed-rectangle test. -/
def QRect.overlaps (a b : QRect) : Bool :=
  !(decide (a.x + a.w < b.x) || decide (a.x > b.x + b.w) ||
    decide (a.y + a.h < b.y) || decide (a.y > b.y + b.h))

/-- `Rectangle::<f64>::intersection`: `none` when the rectangles do not
overlap, otherwise the rectangle between the componentwise max of the
top-left corners and min of the bottom-right corners. -/
def QRect.intersection (a b : QRect) : Option QRect :=
  if !(a.overlaps b) then
    none
  else
    some (QRect.from_extemities (max a.x b.x) (max a.y b.y)
      (min (a.x + a.w) (b.x + b.w)) (min (a.y + a.h) (b.y + b.h)))

/-- `Rectangle::<i32>::to_f64`. -/
def IRect.to_f64 (r : IRect) : QRect :=
  ⟨(r.x : ℚ), (r.y : ℚ), (r.w : ℚ), (r.h : ℚ)⟩

/-- `Rectangle::<f64>::to_logical(scale)`: divide all components by the scale.
The painter calls this with scale `1.0`. -/
def QRect.to_logical (r : QRect) (scale : ℚ) : QRect :=
  ⟨r.x / scale, r.y / scale, r.w / scale, r.h / scale⟩

/-- `Rectangle::<f64, Logical>::to_physical(scale)` with a two-component
`Scale`: multiply x-components by `sx` and y-components by `sy`. -/
def QRect.to_physical (r : QRect) (sx sy : ℚ) : QRect :=
  ⟨r.x * sx, r.y * sy, r.w * sx, r.h * sy⟩

/-- `Rectangle::<f64>::to_i32_round`: round every component to the nearest
integer. -/
def QRect.to_i32_round (r : QRect) : IRect :=
  ⟨round r.x, round r.y, round r.w, round r.h⟩

/-- The damage-merging fold at the top of `GlState::paint_meshes`
(src/src/rendering/mod.rs lines 241–257): fold the damage list into an
accumulator; for each rectangle, partition the accumulator into the
rectangles overlapping it and the rest, merge the rectangle with every
overlapping one, and push the result onto the rest. -/
def merge_damage (damage : List IRect) : List IRect :=
  damage.foldl
    (fun new_damage rect =>
      let p := new_damage.partition (fun other => other.overlaps rect)
      p.2 ++ [p.1.foldl IRect.merge rect])
    []

/-! ## Event translator (`src/src/input.rs`) -/

/-- The subset of `egui::Key` produced by the fixed keysym table. -/
inductive Key where
  | ArrowDown | ArrowLeft | ArrowRight | ArrowUp
  | Escape | Tab | Backspace | Enter | Space
  | Insert | Delete | Home | End | PageUp | PageDown
  | Num0 | Num1 | Num2 | Num3 | Num4 | Num5 | Num6 | Num7 | Num8 | Num9
  | A | B | C | D | E | F | G | H | I | J | K | L | M
  | N | O | P | Q | R | S | T | U | V | W | X | Y | Z
deriving DecidableEq

/-- `TryFrom<KeysymConv> for Key` (src/src/input.rs lines 74–138): the fixed
symbol→logical-key match, keysyms given by their X11 keysym values. -/
def keysym_to_key (sym : Nat) : Option Key :=
  match sym with
  | 0xff54 => some .ArrowDown
  | 0xff51 => some .ArrowLeft
  | 0xff53 => some .ArrowRight
  | 0xff52 => some .ArrowUp
  | 0xff1b => some .Escape
  | 0xff09 => some .Tab
  | 0xff08 => some .Backspace
  | 0xff0d => some .Enter
  | 0x0020 => some .Space
  | 0xff63 => some .Insert
  | 0xffff => some .Delete
  | 0xff50 => some .Home
  | 0xff57 => some .End
  | 0xff55 => some .PageUp
  | 0xff56 => some .PageDown
  | 0x0030 => some .Num0
  | 0x0031 => some .Num1
  | 0x0032 => some .Num2
  | 0x0033 => some .Num3
  | 0x0034 => some .Num4
  | 0x0035 => some .Num5
  | 0x0036 => some .Num6
  | 0x0037 => some .Num7
  | 0x0038 => some .Num8
  | 0x0039 => some .Num9
  | 0x0061 => some .A
  | 0x0062 => some .B
  | 0x0063 => some .C
  | 0x0064 => some .D
  | 0x0065 => some .E
  | 0x0066 => some .F
  | 0x0067 => some .G
  | 0x0068 => some .H
  | 0x0069 => some .I
  | 0x006a => some .J
  | 0x006b => some .K
  | 0x006c => some .L
  | 0x006d => some .M
  | 0x006e => some .N
  | 0x006f => some .O
  | 0x0070 => some .P
  | 0x0071 => some .Q
  | 0x0072 => some .R
  | 0x0073 => some .S
  | 0x0074 => some .T
  | 0x0075 => some .U
  | 0x0076 => some .V
  | 0x0077 => some .W
  | 0x0078 => some .X
  | 0x0079 => some .Y
  | 0x007a => some .Z
  | _ => none

/-- The explicit contents of the keysym table of `keysym_to_key`, as
(keysym, logical key) pairs, for stating the key-mapping claim. -/
def key_table : List (Nat × Key) :=
  [(0xff54, .ArrowDown), (0xff51, .ArrowLeft), (0xff53, .ArrowRight),
   (0xff52, .ArrowUp), (0xff1b, .Escape), (0xff09, .Tab), (0xff08, .Backspace),
   (0xff0d, .Enter), (0x0020, .Space), (0xff63, .Insert), (0xffff, .Delete),
   (0xff50, .Home), (0xff57, .End), (0xff55, .PageUp), (0xff56, .PageDown),
   (0x0030, .Num0), (0x0031, .Num1), (0x0032, .Num2), (0x0033, .Num3),
   (0x0034, .Num4), (0x0035, .Num5), (0x0036, .Num6), (0x0037, .Num7),
   (0x0038, .Num8), (0x0039, .Num9),
   (0x0061, .A), (0x0062, .B), (0x0063, .C), (0x0064, .D), (0x0065, .E),
   (0x0066, .F), (0x0067, .G), (0x0068, .H), (0x0069, .I), (0x006a, .J),
   (0x006b, .K), (0x006c, .L), (0x006d, .M), (0x006e, .N), (0x006f, .O),
   (0x0070, .P), (0x0071, .Q), (0x0072, .R), (0x0073, .S), (0x0074, .T),
   (0x0075, .U), (0x0076, .V), (0x0077, .W), (0x0078, .X), (0x0079, .Y),
   (0x007a, .Z)]

/-- `convert_key` (src/src/input.rs lines 63–70): return the translation of
the first keysym in the sequence that the table maps. -/
def convert_key (keys : List Nat) : Option Key :=
  match keys with
  | [] => none
  | sym :: rest =>
    match keysym_to_key sym with
    | some key => some key
    | none => convert_key rest

/-- `smithay::backend::input::MouseButton`. -/
inductive MouseButton where
  | Left | Middle | Right | Forward | Back
  | Other (code : Nat)
deriving DecidableEq

/-- `egui::PointerButton` (the variants this library produces). -/
inductive PointerButton where
  | Primary | Secondary | Middle
deriving DecidableEq

/-- `convert_button` (src/src/input.rs lines 168–187). -/
def convert_button (button : MouseButton) : Option PointerButton :=
  match button with
  | .Left => some .Primary
  | .Middle => some .Middle
  | .Right => some .Secondary
  | _ => none

/-- The fields of `smithay::input::keyboard::ModifiersState` this library
reads. -/
structure ModifiersState where
  alt : Bool
  ctrl : Bool
  shift : Bool
  logo : Bool
deriving DecidableEq

/-- Default modifier state: nothing held. -/
def ModifiersState.default : ModifiersState := ⟨false, false, false, false⟩

/-- `egui::Modifiers`. -/
structure Modifiers where
  alt : Bool
  ctrl : Bool
  shift : Bool
  mac_cmd : Bool
  command : Bool
deriving DecidableEq

/-- `convert_modifiers` (src/src/input.rs lines 141–165); `macos` is the
compile-time `cfg!(target_os = "macos")` switch. -/
def convert_modifiers (macos : Bool) (m : ModifiersState) : Modifiers :=
  { alt := m.alt
    ctrl := m.ctrl
    shift := m.shift
    mac_cmd := if macos then m.logo else false
    command := if macos then m.logo else m.ctrl }

/-! ## Frame orchestrator (`src/src/lib.rs`): state and input handlers -/

/-- The `egui::Event` values this library produces. Pointer coordinates and
scroll amounts are integer-valued in every claim, so they are kept as `Int`
(the source casts `i32`/`f64` to `f32`, exact on these ranges). -/
inductive Event where
  | PointerMoved (pos : Int × Int)
  | PointerButton (pos : Int × Int) (button : PointerButton) (pressed : Bool)
      (modifiers : Modifiers)
  | Key (key : Key) (pressed : Bool) (modifiers : Modifiers)
  | Text (s : String)
  | Scroll (x y : Int)
  | PointerGone
deriving DecidableEq

/-- The external xkb composition engine (`input::KbdInternal`) modelled as the
log of `key_input(keycode, pressed)` feeds it has received; what UTF-8 text a
feed composes is delegated to an uninterpreted function `g` taken as a
parameter by the handlers. -/
abbrev KbdLog := List (Nat × Bool)

/-- `KbdInternal::key_input` on an optionally-initialized engine
(`EguiInner.kbd` is `None` when keymap compilation failed). -/
def kbd_key_input (kbd : Option KbdLog) (code : Nat) (pressed : Bool) :
    Option KbdLog :=
  kbd.map (fun log => log ++ [(code, pressed)])

/-- Number of feeds recorded by an optionally-initialized engine. -/
def kbdLen (kbd : Option KbdLog) : Nat :=
  match kbd with
  | none => 0
  | some log => log.length

/-- The fields of `EguiInner` (src/src/lib.rs lines 53–65) that the claims
touch. `last_output` and the optional `z_index` are omitted: no claim
mentions them and no modelled operation reads them. -/
structure EguiInner where
  pointers : Nat
  last_pointer_position : Int × Int
  area : IRect
  last_modifiers : ModifiersState
  pressed : List (Option Key × Nat)
  focused : Bool
  events : List Event
  kbd : Option KbdLog
deriving DecidableEq

/-- `EguiState::new` (src/src/lib.rs lines 98–122); `kbdOk` records whether
`KbdInternal::new()` succeeded. -/
def egui_new (area : IRect) (kbdOk : Bool) : EguiInner :=
  { pointers := 0
    last_pointer_position := (0, 0)
    area := area
    last_modifiers := ModifiersState.default
    pressed := []
    focused := false
    events := []
    kbd := if kbdOk then some [] else none }

/-- `EguiState::handle_device_added` (src/src/lib.rs lines 147–151). -/
def handle_device_added (hasPointer : Bool) (st : EguiInner) : EguiInner :=
  if hasPointer then { st with pointers := st.pointers + 1 } else st

/-- `EguiState::handle_device_removed` (src/src/lib.rs lines 154–162).
`inner.pointers -= 1` is an unguarded `usize` subtraction, so the call is
modelled as `none` (not total) when the tracked count is zero; afterwards a
`PointerGone` event is pushed whenever the count reads zero. -/
def handle_device_removed (hasPointer : Bool) (st : EguiInner) :
    Option EguiInner :=
  if hasPointer then
    if st.pointers = 0 then
      none
    else
      let st := { st with pointers := st.pointers - 1 }
      some (if st.pointers = 0 then
        { st with events := st.events ++ [Event.PointerGone] }
      else st)
  else
    some (if st.pointers = 0 then
      { st with events := st.events ++ [Event.PointerGone] }
    else st)

/-- `EguiState::handle_keyboard` (src/src/lib.rs lines 171–203): store the
modifiers, push a `Key` event when the keysyms translate, track/untrack the
pressed keycode, feed the composition engine, and on key-down push the
composed text. `g` is the uninterpreted `State::key_get_utf8` of the (updated)
engine. -/
def handle_keyboard (macos : Bool) (g : KbdLog → Nat → String)
    (syms : List Nat) (code : Nat) (pressed : Bool) (modifiers : ModifiersState)
    (st : EguiInner) : EguiInner :=
  let st := { st with last_modifiers := modifiers }
  let key := convert_key syms
  let st := match key with
    | some k =>
      { st with events := st.events ++
          [Event.Key k pressed (convert_modifiers macos modifiers)] }
    | none => st
  let st :=
    if pressed then { st with pressed := st.pressed ++ [(key, code)] }
    else { st with pressed := st.pressed.filter (fun p => p.2 ≠ code) }
  match st.kbd with
  | some log =>
    let log := log ++ [(code, pressed)]
    let st := { st with kbd := some log }
    if pressed then { st with events := st.events ++ [Event.Text (g log code)] }
    else st
  | none => st

/-- `EguiState::handle_pointer_motion` (src/src/lib.rs lines 206–213). -/
def handle_pointer_motion (pos : Int × Int) (st : EguiInner) : EguiInner :=
  { st with last_pointer_position := pos
            events := st.events ++ [Event.PointerMoved pos] }

/-- `EguiState::handle_pointer_button` (src/src/lib.rs lines 220–232). -/
def handle_pointer_button (macos : Bool) (button : MouseButton)
    (pressed : Bool) (st : EguiInner) : EguiInner :=
  match convert_button button with
  | some b =>
    { st with events := st.events ++
        [Event.PointerButton st.last_pointer_position b pressed
          (convert_modifiers macos st.last_modifiers)] }
  | none => st

/-- `EguiState::handle_pointer_axis` (src/src/lib.rs lines 239–244). -/
def handle_pointer_axis (x y : Int) (st : EguiInner) : EguiInner :=
  { st with events := st.events ++ [Event.Scroll x y] }

/-- The state effect of `EguiState::render` on `EguiInner`
(src/src/lib.rs lines 324–352): the event queue is drained into the frame's
input batch and the stored area is replaced by the call's area. Returns the
drained batch. -/
def render_drain (area : IRect) (st : EguiInner) : EguiInner × List Event :=
  ({ st with events := [], area := area }, st.events)

/-- The body of the loop in `KeyboardTarget::leave`: push a synthetic key-up
event when a logical key was recorded for the entry, and feed a key-up to the
composition engine. -/
def leave_body (macos : Bool) (s : EguiInner) (p : Option Key × Nat) :
    EguiInner :=
  let s := match p.1 with
    | some k =>
      { s with events := s.events ++
          [Event.Key k false (convert_modifiers macos s.last_modifiers)] }
    | none => s
  { s with kbd := kbd_key_input s.kbd p.2 false }

/-- `KeyboardTarget::leave` (src/src/lib.rs lines 623–647): drop focus, take
the pressed list, and run the release loop over it. -/
def keyboard_leave (macos : Bool) (st : EguiInner) : EguiInner :=
  let st0 := { st with focused := false, pressed := [] }
  st.pressed.foldl (leave_body macos) st0

/-! ## Interleaved input/render traces (for the queue-FIFO claim) -/

/-- One call into `EguiState` from the host: an input-handler call or a
render call. -/
inductive Op where
  | pointerMotion (pos : Int × Int)
  | pointerButton (button : MouseButton) (pressed : Bool)
  | pointerAxis (x y : Int)
  | keyboard (syms : List Nat) (code : Nat) (pressed : Bool)
      (modifiers : ModifiersState)
  | deviceAdded (hasPointer : Bool)
  | deviceRemoved (hasPointer : Bool)
  | render (area : IRect)

/-- Apply one call: `none` models a panic, `some (st, some batch)` a render
call draining `batch`, `some (st, none)` an input call. -/
def step (macos : Bool) (g : KbdLog → Nat → String) (st : EguiInner) :
    Op → Option (EguiInner × Option (List Event))
  | .pointerMotion pos => some (handle_pointer_motion pos st, none)
  | .pointerButton b pressed => some (handle_pointer_button macos b pressed st, none)
  | .pointerAxis x y => some (handle_pointer_axis x y st, none)
  | .keyboard syms code pressed m =>
    some (handle_keyboard macos g syms code pressed m st, none)
  | .deviceAdded hp => some (handle_device_added hp st, none)
  | .deviceRemoved hp => (handle_device_removed hp st).map (fun s => (s, none))
  | .render area =>
    let r := render_drain area st
    some (r.1, some r.2)

/-- Run a trace of calls, collecting every render's drained input batch in
order. -/
def run (macos : Bool) (g : KbdLog → Nat → String) (st : EguiInner) :
    List Op → Option (EguiInner × List (List Event))
  | [] => some (st, [])
  | op :: rest =>
    match step macos g st op with
    | none => none
    | some (st1, b) =>
      (run macos g st1 rest).map (fun r =>
        (r.1, match b with | some batch => batch :: r.2 | none => r.2))

/-- The events an individual call appends to the queue, as a function of the
state it runs in (render calls append nothing; they drain). -/
def pushedBy (macos : Bool) (g : KbdLog → Nat → String) (st : EguiInner) :
    Op → List Event
  | .pointerMotion pos => [Event.PointerMoved pos]
  | .pointerButton b pressed =>
    match convert_button b with
    | some pb => [Event.PointerButton st.last_pointer_position pb pressed
        (convert_modifiers macos st.last_modifiers)]
    | none => []
  | .pointerAxis x y => [Event.Scroll x y]
  | .keyboard syms code pressed m =>
    (match convert_key syms with
      | some k => [Event.Key k pressed (convert_modifiers macos m)]
      | none => []) ++
    (match st.kbd with
      | some log => if pressed then [Event.Text (g (log ++ [(code, pressed)]) code)] else []
      | none => [])
  | .deviceAdded _ => []
  | .deviceRemoved hp =>
    if (if hp then st.pointers - 1 else st.pointers) = 0 ∧ ¬(hp ∧ st.pointers = 0)
    then [Event.PointerGone] else []
  | .render _ => []

/-- All events appended along a trace, in submission order (cut off at a
panicking call). -/
def appendedAlong (macos : Bool) (g : KbdLog → Nat → String) (st : EguiInner) :
    List Op → List Event
  | [] => []
  | op :: rest =>
    match step macos g st op with
    | none => []
    | some (st1, _) => pushedBy macos g st op ++ appendedAlong macos g st1 rest

/-! ## Texture upload cache (`GlState::upload_textures`) -/

/-- `egui::TextureId`: toolkit-managed identifier or externally-supplied raw
GL texture handle. -/
inductive TextureId where
  | Managed (id : Nat)
  | User (tex : Nat)
deriving DecidableEq

/-- The size-relevant shape of an `egui::epaint::ImageDelta`: optional target
position (a whole-image delta has `pos = none`) plus the delta image's
dimensions. The pixel bytes themselves are never consulted by any claim and
are elided. -/
structure ImageDelta where
  pos : Option (Nat × Nat)
  width : Nat
  height : Nat
deriving DecidableEq

/-- One cache entry of `GlState::egui_textures`: GL texture name plus the
recorded `[w, h]`. -/
structure TexEntry where
  tex : Nat
  w : Nat
  h : Nat
deriving DecidableEq

/-- Association-list lookup standing in for the `HashMap` `get`. -/
def lookupEntry (entries : List (Nat × TexEntry)) (id : Nat) :
    Option TexEntry :=
  match entries with
  | [] => none
  | (k, v) :: rest => if k = id then some v else lookupEntry rest id

/-- Association-list insert standing in for the `HashMap` `insert`
(replaces an existing binding). -/
def insertEntry (entries : List (Nat × TexEntry)) (id : Nat) (v : TexEntry) :
    List (Nat × TexEntry) :=
  match entries with
  | [] => [(id, v)]
  | (k, w) :: rest =>
    if k = id then (k, v) :: rest else (k, w) :: insertEntry rest id v

/-- The texture cache plus a fresh-name supply standing in for
`glGenTextures`. -/
structure TexCache where
  entries : List (Nat × TexEntry)
  nextTex : Nat
deriving DecidableEq

/-- The GL calls `upload_textures` emits, reified. -/
inductive GLTexOp where
  | DeleteTextures (tex : Nat)
  | GenTextures (tex : Nat)
  | TexStorage2D (tex : Nat) (w h : Nat)
  | TexSubImage2D (tex : Nat) (x y w h : Nat)
deriving DecidableEq

/-- One iteration of the `upload_textures` loop
(src/src/rendering/mod.rs lines 114–185) for a managed id: compute the target
sub-region; reuse the cached texture when the recorded size contains the
target region, otherwise delete it (if any) and allocate a new texture sized
to the delta image's dimensions; then issue the sub-image upload and record
`[t_w, t_h]` as the entry's size. -/
def upload_texture_managed (st : TexCache) (id : Nat) (delta : ImageDelta) :
    TexCache × List GLTexOp :=
  let tx := (delta.pos.map Prod.fst).getD 0
  let ty := (delta.pos.map Prod.snd).getD 0
  let tw := delta.width
  let th := delta.height
  match lookupEntry st.entries id with
  | some e =>
    if tx + tw ≤ e.w ∧ ty + th ≤ e.h then
      ({ st with entries := insertEntry st.entries id ⟨e.tex, tw, th⟩ },
       [GLTexOp.TexSubImage2D e.tex tx ty tw th])
    else
      let t := st.nextTex
      ({ entries := insertEntry st.entries id ⟨t, tw, th⟩, nextTex := t + 1 },
       [GLTexOp.DeleteTextures e.tex, GLTexOp.GenTextures t,
        GLTexOp.TexStorage2D t tw th, GLTexOp.TexSubImage2D t tx ty tw th])
  | none =>
    let t := st.nextTex
    ({ entries := insertEntry st.entries id ⟨t, tw, th⟩, nextTex := t + 1 },
     [GLTexOp.GenTextures t, GLTexOp.TexStorage2D t tw th,
      GLTexOp.TexSubImage2D t tx ty tw th])

/-- `GlState::upload_textures` (src/src/rendering/mod.rs lines 109–188):
process each delta in order, ignoring `TextureId::User` entries. -/
def upload_textures (st : TexCache) (deltas : List (TextureId × ImageDelta)) :
    TexCache × List GLTexOp :=
  deltas.foldl
    (fun acc d =>
      match d.1 with
      | .Managed id =>
        let r := upload_texture_managed acc.1 id d.2
        (r.1, acc.2 ++ r.2)
      | .User _ => acc)
    (st, [])

/-- Number of texture (re)allocations in an emitted GL call list. -/
def allocCount (ops : List GLTexOp) : Nat :=
  (ops.filter (fun op => match op with
    | GLTexOp.TexStorage2D _ _ _ => true
    | _ => false)).length

/-! ## Mesh painting (`GlState::paint_meshes` / `paint_mesh`) -/

/-- The draw-relevant shape of an `egui::epaint::Mesh`: its texture id and
its index count (vertex/index contents are streamed to GL buffers verbatim
and never inspected). -/
structure MeshData where
  texture_id : TextureId
  indices : Nat
deriving DecidableEq

/-- `egui::epaint::Primitive`: mesh or custom paint callback. -/
inductive Primitive where
  | mesh (m : MeshData)
  | callback
deriving DecidableEq

/-- `egui::ClippedPrimitive`: a primitive plus its clip rectangle
(egui-side `f32` corners, modelled over `ℚ`). -/
structure ClippedPrimitive where
  clip_min : ℚ × ℚ
  clip_max : ℚ × ℚ
  primitive : Primitive
deriving DecidableEq

/-- One indexed triangle draw as issued by `paint_mesh`: the GL texture bound
for it and the index count passed to `DrawElements`. -/
structure GLDraw where
  tex : Nat
  index_count : Nat
deriving DecidableEq

/-- A draw together with the scissor box set for it
(`x, y, width, height` as passed to `gl.Scissor`). -/
structure ScissoredDraw where
  scissor : Int × Int × Int × Int
  draw : GLDraw
deriving DecidableEq

/-- `GlState::paint_mesh` (src/src/rendering/mod.rs lines 318–353): resolve
the texture — a managed id is looked up in the cache and its absence is a
panic (`expect("Unknown managed texture id")`, modelled as `none`); a user id
is used directly — then issue one indexed draw. -/
def paint_mesh (cache : List (Nat × TexEntry)) (m : MeshData) :
    Option GLDraw :=
  match m.texture_id with
  | .Managed id =>
    match lookupEntry cache id with
    | some e => some ⟨e.tex, m.indices⟩
    | none => none
  | .User tex => some ⟨tex, m.indices⟩

/-- The loop-with-`?` over a list: `none` as soon as the body fails
(models a loop whose body can panic or early-return an error). -/
def mapOrFail (f : α → Option β) : List α → Option (List β)
  | [] => some []
  | a :: rest =>
    match f a with
    | none => none
    | some b => (mapOrFail f rest).map (fun bs => b :: bs)

/-- The scissor box computed for one non-empty clip∩damage intersection
(src/src/rendering/mod.rs lines 275–289): intersect in `f64`, convert via
`to_logical(1.0)`, `to_physical(scale)` and `to_i32_round`, apply the frame's
output transform (`transform_rect_in`, an external collaborator supplied as
the function `tr`), offset by the draw location, and clamp every component to
at least 0. -/
def scissor_of (tr : IRect → IRect) (location : Int × Int) (sx sy : ℚ)
    (clip : QRect) (damage : QRect) : Int × Int × Int × Int :=
  let inter := (clip.intersection damage).getD ⟨0, 0, 0, 0⟩
  let sb := ((inter.to_logical 1).to_physical sx sy).to_i32_round
  let sb := tr sb
  let sb := { sb with x := sb.x + location.1, y := sb.y + location.2 }
  (max sb.x 0, max sb.y 0, max sb.w 0, max sb.h 0)

/-- The per-primitive body of the `paint_meshes` loop
(src/src/rendering/mod.rs lines 259–308): build the clip rectangle from the
primitive's corner points, keep only the merged damage rectangles overlapping
it, and for each one set the scissor box and paint. A mesh with an unknown
managed texture panics inside the loop (`none`); a callback primitive is
`unimplemented!()`, so it panics exactly when the loop body is entered. -/
def paint_prim (cache : List (Nat × TexEntry)) (tr : IRect → IRect)
    (location : Int × Int) (sx sy : ℚ) (merged : List IRect)
    (cp : ClippedPrimitive) : Option (List ScissoredDraw) :=
  let clip := QRect.from_extemities cp.clip_min.1 cp.clip_min.2
    cp.clip_max.1 cp.clip_max.2
  let overlapping := (merged.map IRect.to_f64).filter (fun d => d.overlaps clip)
  match cp.primitive with
  | .mesh m =>
    mapOrFail
      (fun d => (paint_mesh cache m).map
        (fun g => ⟨scissor_of tr location sx sy clip d, g⟩))
      overlapping
  | .callback => if overlapping.isEmpty then some [] else none

/-- `GlState::paint_meshes` (src/src/rendering/mod.rs lines 205–316),
restricted to its per-draw outputs: merge the damage, then paint each clipped
primitive in order against the merged damage. -/
def paint_meshes (cache : List (Nat × TexEntry)) (tr : IRect → IRect)
    (location : Int × Int) (sx sy : ℚ) (damage : List IRect)
    (prims : List ClippedPrimitive) : Option (List ScissoredDraw) :=
  let merged := merge_damage damage
  (mapOrFail (paint_prim cache tr location sx sy merged) prims).map List.flatten

/-! ## Per-instance render buffers (`EguiState::render`, buffer management) -/

/-- The buffer-management state of one `EguiState` instance: the area stored
in `EguiInner` and the `render_buffers` map restricted to this instance's key
(`none` = no buffer yet; `some g` = a buffer, identified by its creation
generation). -/
structure RenderBufState where
  area : IRect
  buffer : Option Nat
  nextGen : Nat
deriving DecidableEq

/-- The render-buffer maintenance performed by one `EguiState::render` call
(src/src/lib.rs lines 306–321 and 351–369): create the buffer on first use
(`entry(..).or_insert_with`), then recreate it when the stored `inner.area`
differs from the call's `area` (`needs_recreate = inner.area != area`), and
store the call's area. Returns the new state and how many buffers were
created by this call. -/
def render_buffer_step (st : RenderBufState) (area : IRect) :
    RenderBufState × Nat :=
  let (buf, gen, created) :=
    match st.buffer with
    | none => (some st.nextGen, st.nextGen + 1, 1)
    | some b => (some b, st.nextGen, 0)
  let needs_recreate := st.area ≠ area
  if needs_recreate then
    ({ area := area, buffer := some gen, nextGen := gen + 1 }, created + 1)
  else
    ({ area := area, buffer := buf, nextGen := gen }, created)

/-! ## Claim C8: the keysym translation table -/

/-- Helper: a keysym outside the table's domain translates to nothing. -/
theorem keysym_to_key_of_not_mem (s : Nat)
    (h : s ∉ key_table.map Prod.fst) : keysym_to_key s = none := by
  unfold keysym_to_key
  split
  all_goals first
    | rfl
    | (exfalso; exact h (by decide))

/-- C8: every keysym in the fixed table translates, via a one-element
sequence, to its table entry; any keysym outside the table yields no mapping;
and on an arbitrary sequence `convert_key` returns the translation of the
first keysym the table maps. -/
theorem convert_key_table_correct :
    (∀ p ∈ key_table, convert_key [p.1] = some p.2) ∧
    (∀ s : Nat, s ∉ key_table.map Prod.fst → convert_key [s] = none) ∧
    (∀ l : List Nat, convert_key l = l.findSome? keysym_to_key) := by
  refine ⟨by decide, fun s hs => ?_, fun l => ?_⟩
  · simp [convert_key, keysym_to_key_of_not_mem s hs]
  · induction l with
    | nil => rfl
    | cons s rest ih =>
      simp only [convert_key, List.findSome?_cons]
      cases keysym_to_key s <;> simp [ih]

/-- Witness for C8 at concrete keysyms: the down-arrow keysym maps, `!` does
not, and on a two-element sequence the first mapped entry wins. -/
theorem convert_key_table_correct_witness :
    convert_key [0xff54] = some Key.ArrowDown ∧ convert_key [0x21] = none :=
  ⟨convert_key_table_correct.1 (0xff54, Key.ArrowDown) (by decide),
   convert_key_table_correct.2.1 0x21 (by decide)⟩

/-! ## Claim C9: device removal -/

/-- C9: with a pointer-capable device, `handle_device_removed` is not total —
it is a panic (unsigned underflow) when no pointer is tracked — and under the
precondition of at least one tracked pointer it decrements the count and
appends `PointerGone` exactly when the count reaches zero. -/
theorem device_removed_spec :
    (∀ st : EguiInner, st.pointers = 0 →
      handle_device_removed true st = none) ∧
    (∀ st : EguiInner, 1 ≤ st.pointers →
      handle_device_removed true st =
        some { st with pointers := st.pointers - 1,
                       events := st.events ++
                         (if st.pointers - 1 = 0 then [Event.PointerGone]
                          else []) }) := by
  constructor
  · intro st h
    simp [handle_device_removed, h]
  · intro st h
    have h0 : ¬(st.pointers = 0) := by omega
    simp only [handle_device_removed, if_true, h0, if_false]
    split <;> simp_all

/-- Witness for C9: removing one of one tracked pointer devices empties the
tracking and appends `PointerGone`; removing with zero tracked panics. -/
theorem device_removed_spec_witness :
    handle_device_removed true { egui_new ⟨0, 0, 10, 10⟩ true with pointers := 1 } =
      some { egui_new ⟨0, 0, 10, 10⟩ true with
             pointers := 0
             events := [Event.PointerGone] } ∧
    handle_device_removed true (egui_new ⟨0, 0, 10, 10⟩ true) = none := by
  constructor
  · have := device_removed_spec.2
      { egui_new ⟨0, 0, 10, 10⟩ true with pointers := 1 } (by decide)
    simpa using this
  · exact device_removed_spec.1 (egui_new ⟨0, 0, 10, 10⟩ true) rfl

/-! ## Claim C6: per-instance render buffer lifetime -/

/-- C6 counterexample: a render call whose area has the same size but a
different location than the previous call's recreates the buffer (one
creation), although the claim says a size-unchanged call reuses it. -/
theorem render_buffer_location_recreate_cex :
    render_buffer_step ⟨⟨0, 0, 100, 100⟩, some 0, 1⟩ ⟨5, 5, 100, 100⟩ =
      (⟨⟨5, 5, 100, 100⟩, some 1, 2⟩, 1) ∧
    (⟨0, 0, 100, 100⟩ : IRect).w = (⟨5, 5, 100, 100⟩ : IRect).w ∧
    (⟨0, 0, 100, 100⟩ : IRect).h = (⟨5, 5, 100, 100⟩ : IRect).h := by
  decide

/-- C6 (amended): the buffer is created lazily on the first render call, and
is recreated exactly when the whole stored area rectangle — location
included, not just its size — differs from the call's; when the rectangle is
unchanged an existing buffer is reused. -/
theorem render_buffer_lazy_recreate (st : RenderBufState) (area : IRect) :
    (render_buffer_step st area).2 =
      (if st.buffer = none then 1 else 0) +
      (if st.area = area then 0 else 1) ∧
    (render_buffer_step st area).1.area = area ∧
    (st.area = area →
      (render_buffer_step st area).1.buffer =
        (if st.buffer = none then some st.nextGen else st.buffer)) := by
  unfold render_buffer_step
  cases hb : st.buffer <;> by_cases ha : st.area = area <;> simp [hb, ha]

/-- Witness for C6: a size-and-location-unchanged call on an existing buffer
performs zero creations and keeps the buffer. -/
theorem render_buffer_lazy_recreate_witness :
    (render_buffer_step ⟨⟨0, 0, 100, 100⟩, some 4, 5⟩ ⟨0, 0, 100, 100⟩).2 =
      (if (some 4 : Option Nat) = none then 1 else 0) +
      (if (⟨0, 0, 100, 100⟩ : IRect) = ⟨0, 0, 100, 100⟩ then 0 else 1) ∧
    (render_buffer_step ⟨⟨0, 0, 100, 100⟩, some 4, 5⟩ ⟨0, 0, 100, 100⟩).1.buffer =
      (if (some 4 : Option Nat) = none then some 5 else some 4) :=
  ⟨(render_buffer_lazy_recreate ⟨⟨0, 0, 100, 100⟩, some 4, 5⟩ ⟨0, 0, 100, 100⟩).1,
   (render_buffer_lazy_recreate ⟨⟨0, 0, 100, 100⟩, some 4, 5⟩ ⟨0, 0, 100, 100⟩).2.2 rfl⟩

/-! ## Claim C7: texture resolution when painting a single mesh -/

/-- C7: painting a mesh with a managed texture identifier that has no live
cache entry is a panic (`expect`, modelled `none`), never a recoverable
result; an externally-supplied raw handle is bound directly — the result is
fixed by the handle alone, with no cache lookup. -/
theorem paint_mesh_texture_contract :
    (∀ (cache : List (Nat × TexEntry)) (m : MeshData) (id : Nat),
      m.texture_id = .Managed id → lookupEntry cache id = none →
      paint_mesh cache m = none) ∧
    (∀ (cache : List (Nat × TexEntry)) (m : MeshData) (t : Nat),
      m.texture_id = .User t →
      paint_mesh cache m = some ⟨t, m.indices⟩) := by
  constructor
  · intro cache m id h1 h2
    simp [paint_mesh, h1, h2]
  · intro cache m t h1
    simp [paint_mesh, h1]

/-- Witness for C7: an empty cache panics on managed id 3, while user handle
9 is bound directly even with an empty cache. -/
theorem paint_mesh_texture_contract_witness :
    paint_mesh [] ⟨TextureId.Managed 3, 6⟩ = none ∧
    paint_mesh [] ⟨TextureId.User 9, 6⟩ = some ⟨9, 6⟩ :=
  ⟨paint_mesh_texture_contract.1 [] ⟨TextureId.Managed 3, 6⟩ 3 rfl rfl,
   paint_mesh_texture_contract.2 [] ⟨TextureId.User 9, 6⟩ 9 rfl⟩

/-! ## Claim C1: texture cache growth on an out-of-bounds delta -/

/-- C1 (code bug): with an entry recorded at 10×10, a partial delta targeting
the 5×5 region at position (20, 0) — which exceeds the recorded allocation —
triggers exactly one reallocation, but the new texture is allocated at the
delta's own 5×5 dimensions and the entry records 5×5: the allocation does not
cover the union of the old allocation and the new region (width 25 needed),
and the sub-image upload the code then issues targets columns 20–24 of a
5-column texture. -/
theorem upload_realloc_undersized :
    upload_textures ⟨[(7, ⟨1, 10, 10⟩)], 2⟩
        [(TextureId.Managed 7, ⟨some (20, 0), 5, 5⟩)] =
      (⟨[(7, ⟨2, 5, 5⟩)], 3⟩,
       [GLTexOp.DeleteTextures 1, GLTexOp.GenTextures 2,
        GLTexOp.TexStorage2D 2 5 5, GLTexOp.TexSubImage2D 2 20 0 5 5]) ∧
    allocCount
      (upload_textures ⟨[(7, ⟨1, 10, 10⟩)], 2⟩
        [(TextureId.Managed 7, ⟨some (20, 0), 5, 5⟩)]).2 = 1 ∧
    lookupEntry
      (upload_textures ⟨[(7, ⟨1, 10, 10⟩)], 2⟩
        [(TextureId.Managed 7, ⟨some (20, 0), 5, 5⟩)]).1.entries 7 =
      some ⟨2, 5, 5⟩ ∧
    ¬(max 10 (20 + 5) ≤ 5) := by
  decide

/-! ## Claim C2: the damage-rectangle merge -/

/-- One step of the damage-merging fold, with the partition spelled as its
two filters. -/
def damage_step (new_damage : List IRect) (rect : IRect) : List IRect :=
  (new_damage.filter (fun other => !(other.overlaps rect))) ++
    [(new_damage.filter (fun other => other.overlaps rect)).foldl IRect.merge rect]

/-- `merge_damage` is the fold of `damage_step` from the empty accumulator. -/
theorem merge_damage_eq_foldl (l : List IRect) :
    merge_damage l = l.foldl damage_step [] := by
  unfold merge_damage damage_step
  congr 1
  funext acc r
  simp only [List.partition_eq_filter_filter]
  rfl

/-- Being an iterated bounding-box merge of one or more members of `l`. -/
inductive MergedFrom (l : List IRect) : IRect → Prop
  | base {r : IRect} : r ∈ l → MergedFrom l r
  | merge {a b : IRect} : MergedFrom l a → MergedFrom l b →
      MergedFrom l (a.merge b)

/-- A point of a rectangle stays inside its merge with any other. -/
theorem containsPt_merge_left {a : IRect} (b : IRect) {p : Int × Int}
    (h : a.containsPt p = true) : (a.merge b).containsPt p = true := by
  simp only [IRect.containsPt, IRect.merge, IRect.from_extemities,
    Bool.and_eq_true, decide_eq_true_eq] at h ⊢
  omega

/-- A point of a rectangle stays inside any merge with it on the right. -/
theorem containsPt_merge_right (a : IRect) {b : IRect} {p : Int × Int}
    (h : b.containsPt p = true) : (a.merge b).containsPt p = true := by
  simp only [IRect.containsPt, IRect.merge, IRect.from_extemities,
    Bool.and_eq_true, decide_eq_true_eq] at h ⊢
  omega

/-- Folding merges over a list keeps every point of the seed rectangle. -/
theorem containsPt_foldl_merge_seed :
    ∀ (ov : List IRect) (r : IRect) (p : Int × Int),
      r.containsPt p = true → (ov.foldl IRect.merge r).containsPt p = true := by
  intro ov
  induction ov with
  | nil => intro r p h; exact h
  | cons a rest ih =>
    intro r p h
    exact ih (r.merge a) p (containsPt_merge_left a h)

/-- Folding merges over a list keeps every point of every list member. -/
theorem containsPt_foldl_merge_mem :
    ∀ (ov : List IRect) (r a : IRect) (p : Int × Int),
      a ∈ ov → a.containsPt p = true →
      (ov.foldl IRect.merge r).containsPt p = true := by
  intro ov
  induction ov with
  | nil => intro r a p ha; exact absurd ha (List.not_mem_nil a)
  | cons b rest ih =>
    intro r a p ha h
    rcases List.mem_cons.mp ha with rfl | ha
    · exact containsPt_foldl_merge_seed rest (r.merge a) p
        (containsPt_merge_right r h)
    · exact ih (r.merge b) a p ha h

/-- One merging step never drops covered area. -/
theorem coveredBy_damage_step {acc : List IRect} {r : IRect} {p : Int × Int}
    (h : coveredBy acc p = true ∨ r.containsPt p = true) :
    coveredBy (damage_step acc r) p = true := by
  simp only [coveredBy, List.any_eq_true] at h ⊢
  rcases h with ⟨a, ha, hc⟩ | hc
  · by_cases ho : a.overlaps r = true
    · refine ⟨(acc.filter (fun other => other.overlaps r)).foldl IRect.merge r,
        ?_, ?_⟩
      · simp [damage_step]
      · exact containsPt_foldl_merge_mem _ r a p
          (List.mem_filter.mpr ⟨ha, ho⟩) hc
    · refine ⟨a, ?_, hc⟩
      simp only [damage_step, List.mem_append]
      exact Or.inl (List.mem_filter.mpr ⟨ha, by simp [ho]⟩)
  · refine ⟨(acc.filter (fun other => other.overlaps r)).foldl IRect.merge r,
      ?_, containsPt_foldl_merge_seed _ r p hc⟩
    simp [damage_step]

/-- Folding merging steps never drops covered area. -/
theorem coveredBy_foldl_damage_step :
    ∀ (l acc : List IRect) (p : Int × Int),
      coveredBy acc p = true ∨ coveredBy l p = true →
      coveredBy (l.foldl damage_step acc) p = true := by
  intro l
  induction l with
  | nil =>
    intro acc p h
    simpa [coveredBy] using h
  | cons r rest ih =>
    intro acc p h
    simp only [List.foldl_cons]
    apply ih
    rcases h with h | h
    · exact Or.inl (coveredBy_damage_step (Or.inl h))
    · have h' : r.containsPt p = true ∨ coveredBy rest p = true := by
        simpa [coveredBy] using h
      rcases h' with h' | h'
      · exact Or.inl (coveredBy_damage_step (Or.inr h'))
      · exact Or.inr h'

/-- A fold of merges of rectangles merged-from `l` is merged-from `l`. -/
theorem mergedFrom_foldl_merge {l : List IRect} :
    ∀ (ov : List IRect) (r : IRect), MergedFrom l r →
      (∀ a ∈ ov, MergedFrom l a) → MergedFrom l (ov.foldl IRect.merge r) := by
  intro ov
  induction ov with
  | nil => intro r hr _; exact hr
  | cons a rest ih =>
    intro r hr hov
    exact ih (r.merge a) (MergedFrom.merge hr (hov a (List.mem_cons_self a rest)))
      (fun b hb => hov b (List.mem_cons_of_mem a hb))

/-- Each element of a merging step is merged from the input list, provided
the accumulator's elements are and the processed rectangle is a member. -/
theorem mergedFrom_damage_step {l acc : List IRect} {r : IRect}
    (hacc : ∀ x ∈ acc, MergedFrom l x) (hr : r ∈ l) :
    ∀ y ∈ damage_step acc r, MergedFrom l y := by
  intro y hy
  simp only [damage_step, List.mem_append, List.mem_singleton] at hy
  rcases hy with hy | rfl
  · exact hacc y (List.mem_of_mem_filter hy)
  · exact mergedFrom_foldl_merge _ r (MergedFrom.base hr)
      (fun a ha => hacc a (List.mem_of_mem_filter ha))

/-- Each element of the damage fold is merged from the input list. -/
theorem mergedFrom_foldl_damage_step {l : List IRect} :
    ∀ (rem acc : List IRect), (∀ x ∈ acc, MergedFrom l x) →
      (∀ r ∈ rem, r ∈ l) →
      ∀ y ∈ rem.foldl damage_step acc, MergedFrom l y := by
  intro rem
  induction rem with
  | nil => intro acc hacc _ y hy; exact hacc y hy
  | cons r rest ih =>
    intro acc hacc hrem y hy
    exact ih (damage_step acc r)
      (mergedFrom_damage_step hacc (hrem r (List.mem_cons_self r rest)))
      (fun a ha => hrem a (List.mem_cons_of_mem r ha)) y hy

/-- The fold leaves a pairwise-nonoverlapping suffix untouched. -/
theorem foldl_damage_step_disjoint :
    ∀ (l acc : List IRect),
      l.Pairwise (fun a b => a.overlaps b = false) →
      (∀ a ∈ acc, ∀ r ∈ l, a.overlaps r = false) →
      l.foldl damage_step acc = acc ++ l := by
  intro l
  induction l with
  | nil => intro acc _ _; simp
  | cons r rest ih =>
    intro acc hp hd
    have hstep : damage_step acc r = acc ++ [r] := by
      have h1 : acc.filter (fun other => other.overlaps r) = [] := by
        apply List.filter_eq_nil_iff.mpr
        intro a ha
        simp [hd a ha r (List.mem_cons_self r rest)]
      have h2 : acc.filter (fun other => !(other.overlaps r)) = acc := by
        apply List.filter_eq_self.mpr
        intro a ha
        simp [hd a ha r (List.mem_cons_self r rest)]
      simp [damage_step, h1, h2]
    simp only [List.foldl_cons, hstep]
    rw [ih (acc ++ [r]) (List.Pairwise.of_cons hp) ?_]
    · simp
    · intro a ha r' hr'
      rcases List.mem_append.mp ha with ha | ha
      · exact hd a ha r' (List.mem_cons_of_mem r hr')
      · rcases List.mem_singleton.mp ha with rfl
        exact (List.pairwise_cons.mp hp).1 r' hr'

/-- The fold never grows the list by more than one element per input. -/
theorem foldl_damage_step_length :
    ∀ (l acc : List IRect),
      (l.foldl damage_step acc).length ≤ acc.length + l.length := by
  intro l
  induction l with
  | nil => intro acc; simp
  | cons r rest ih =>
    intro acc
    simp only [List.foldl_cons, List.length_cons]
    calc ((rest.foldl damage_step (damage_step acc r)).length)
        ≤ (damage_step acc r).length + rest.length := ih _
      _ ≤ acc.length + 1 + rest.length := by
          have := List.length_filter_le (fun other => !(other.overlaps r)) acc
          simp only [damage_step, List.length_append, List.length_singleton]
          omega
      _ = acc.length + (rest.length + 1) := by omega

/-- C2 counterexample: (i) with input `[A, B, C]` where `C` overlaps only `B`
but their bounding box reaches back over `A`, the single merging pass leaves
two overlapping rectangles in its output; (ii) merging two diagonally
overlapping rectangles produces a bounding box covering the point (2, 0) that
neither input covers, so the output's covered area strictly exceeds the
inputs' union. -/
theorem merge_damage_cex :
    (merge_damage [⟨10, 0, 2, 2⟩, ⟨10, 10, 5, 5⟩, ⟨13, 0, 2, 12⟩] =
      [⟨10, 0, 2, 2⟩, ⟨10, 0, 5, 15⟩] ∧
     IRect.overlaps ⟨10, 0, 2, 2⟩ ⟨10, 0, 5, 15⟩ = true) ∧
    (merge_damage [⟨0, 0, 2, 2⟩, ⟨1, 1, 2, 2⟩] = [⟨0, 0, 3, 3⟩] ∧
     coveredBy [⟨0, 0, 3, 3⟩] (2, 0) = true ∧
     coveredBy [⟨0, 0, 2, 2⟩, ⟨1, 1, 2, 2⟩] (2, 0) = false) := by
  decide

/-- C2 (amended): the single merging pass (1) applied to a pairwise
non-overlapping list returns it unchanged; (2) never returns more rectangles
than it was given; (3) returns only iterated bounding-box merges of one or
more input rectangles; and (4) covers at least — not exactly — the union of
the input rectangles' areas. It does not guarantee a pairwise-disjoint
output, and bounding-box merging can strictly enlarge the covered area. -/
theorem merge_damage_properties :
    (∀ l : List IRect,
      l.Pairwise (fun a b => a.overlaps b = false) → merge_damage l = l) ∧
    (∀ l : List IRect, (merge_damage l).length ≤ l.length) ∧
    (∀ l : List IRect, ∀ r ∈ merge_damage l, MergedFrom l r) ∧
    (∀ (l : List IRect) (p : Int × Int),
      coveredBy l p = true → coveredBy (merge_damage l) p = true) := by
  refine ⟨fun l hp => ?_, fun l => ?_, fun l r hr => ?_, fun l p hc => ?_⟩
  · rw [merge_damage_eq_foldl]
    simpa using foldl_damage_step_disjoint l [] hp (by simp)
  · rw [merge_damage_eq_foldl]
    simpa using foldl_damage_step_length l []
  · rw [merge_damage_eq_foldl] at hr
    exact mergedFrom_foldl_damage_step l [] (by simp) (fun _ h => h) r hr
  · rw [merge_damage_eq_foldl]
    exact coveredBy_foldl_damage_step l [] p (Or.inr hc)

/-- Witness for C2 (amended) at concrete inputs: a disjoint pair is returned
unchanged, and the output of the overlapping pair still covers the point
(1, 1) covered by the inputs. -/
theorem merge_damage_properties_witness :
    merge_damage [⟨0, 0, 1, 1⟩, ⟨5, 5, 1, 1⟩] = [⟨0, 0, 1, 1⟩, ⟨5, 5, 1, 1⟩] ∧
    coveredBy (merge_damage [⟨0, 0, 2, 2⟩, ⟨1, 1, 2, 2⟩]) (1, 1) = true :=
  ⟨merge_damage_properties.1 [⟨0, 0, 1, 1⟩, ⟨5, 5, 1, 1⟩] (by decide),
   merge_damage_properties.2.2.2 [⟨0, 0, 2, 2⟩, ⟨1, 1, 2, 2⟩] (1, 1) (by decide)⟩

/-! ## Claim C3: event queue FIFO and exactly-once delivery -/

/-- `handle_keyboard` appends exactly its `pushedBy` events, in order. -/
theorem events_handle_keyboard (macos : Bool) (g : KbdLog → Nat → String)
    (syms : List Nat) (code : Nat) (pressed : Bool) (m : ModifiersState)
    (st : EguiInner) :
    (handle_keyboard macos g syms code pressed m st).events =
      st.events ++ pushedBy macos g st (.keyboard syms code pressed m) := by
  unfold handle_keyboard pushedBy
  cases hck : convert_key syms <;> cases hk : st.kbd <;> cases pressed <;>
    simp [hck, hk]

/-- `handle_device_removed`, when it does not panic, appends exactly its
`pushedBy` events. -/
theorem events_handle_device_removed (macos : Bool)
    (g : KbdLog → Nat → String) (hp : Bool) {st st1 : EguiInner}
    (h : handle_device_removed hp st = some st1) :
    st1.events = st.events ++ pushedBy macos g st (.deviceRemoved hp) := by
  unfold handle_device_removed at h
  unfold pushedBy
  cases hp
  · simp only [Bool.false_eq_true, if_false, Option.some_inj] at h
    subst h
    by_cases h0 : st.pointers = 0 <;> simp [h0]
  · by_cases h0 : st.pointers = 0
    · simp [h0] at h
    · simp only [if_true, h0, if_false, Option.some_inj] at h
      subst h
      by_cases h1 : st.pointers - 1 = 0 <;> simp_all

/-- Characterization of one `step`: an input call appends its `pushedBy`
events and produces no batch; a render call produces the whole queue as its
batch, empties the queue, and appends nothing. -/
theorem step_events (macos : Bool) (g : KbdLog → Nat → String) (op : Op)
    {st st1 : EguiInner} {b : Option (List Event)}
    (h : step macos g st op = some (st1, b)) :
    (b = none ∧ st1.events = st.events ++ pushedBy macos g st op) ∨
    (b = some st.events ∧ st1.events = [] ∧ pushedBy macos g st op = []) := by
  cases op with
  | pointerMotion pos =>
    left
    simp only [step, Option.some_inj, Prod.mk.injEq] at h
    simp [← h.1, h.2, handle_pointer_motion, pushedBy]
  | pointerButton button pressed =>
    left
    simp only [step, Option.some_inj, Prod.mk.injEq] at h
    refine ⟨h.2.symm, ?_⟩
    rw [← h.1]
    unfold handle_pointer_button pushedBy
    cases hcb : convert_button button <;> simp [hcb]
  | pointerAxis x y =>
    left
    simp only [step, Option.some_inj, Prod.mk.injEq] at h
    simp [← h.1, h.2, handle_pointer_axis, pushedBy]
  | keyboard syms code pressed m =>
    left
    simp only [step, Option.some_inj, Prod.mk.injEq] at h
    rw [← h.1]
    exact ⟨h.2.symm, events_handle_keyboard macos g syms code pressed m st⟩
  | deviceAdded hp =>
    left
    simp only [step, Option.some_inj, Prod.mk.injEq] at h
    refine ⟨h.2.symm, ?_⟩
    rw [← h.1]
    unfold handle_device_added pushedBy
    cases hp <;> simp
  | deviceRemoved hp =>
    left
    simp only [step, Option.map_eq_some'] at h
    obtain ⟨s, hs, heq⟩ := h
    obtain ⟨rfl, rfl⟩ := Prod.mk.injEq .. ▸ heq
    exact ⟨rfl, events_handle_device_removed macos g hp hs⟩
  | render area =>
    right
    simp only [step, render_drain, Option.some_inj, Prod.mk.injEq] at h
    simp [← h.1, ← h.2, pushedBy]

/-- C3: for any interleaving of input-handler calls and render calls that
completes without panicking, the render batches concatenated in order,
followed by whatever remains queued, equal the initially queued events
followed by every appended event in submission order — so each appended
event is delivered in exactly one render batch, in FIFO order, never twice,
and events appended after a drain go to the next batch. -/
theorem event_queue_fifo (macos : Bool) (g : KbdLog → Nat → String) :
    ∀ (ops : List Op) (st st' : EguiInner) (batches : List (List Event)),
      run macos g st ops = some (st', batches) →
      batches.flatten ++ st'.events =
        st.events ++ appendedAlong macos g st ops := by
  intro ops
  induction ops with
  | nil =>
    intro st st' batches h
    simp only [run, Option.some_inj, Prod.mk.injEq] at h
    simp [← h.1, ← h.2, appendedAlong]
  | cons op rest ih =>
    intro st st' batches h
    simp only [run] at h
    cases hstep : step macos g st op with
    | none => rw [hstep] at h; exact absurd h (by simp)
    | some r =>
      obtain ⟨st1, b⟩ := r
      rw [hstep] at h
      simp only [Option.map_eq_some'] at h
      obtain ⟨⟨st2, bs⟩, hrun, heq⟩ := h
      have hih := ih st1 st2 bs hrun
      have happ : appendedAlong macos g st (op :: rest) =
          pushedBy macos g st op ++ appendedAlong macos g st1 rest := by
        simp [appendedAlong, hstep]
      rcases step_events macos g op hstep with ⟨hb, hev⟩ | ⟨hb, hev, hpush⟩
      · subst hb
        simp only at heq
        obtain ⟨rfl, rfl⟩ := Prod.mk.injEq .. ▸ heq
        rw [happ, hih, hev]
        simp
      · subst hb
        simp only at heq
        obtain ⟨rfl, rfl⟩ := Prod.mk.injEq .. ▸ heq
        simp only [List.flatten_cons, List.append_assoc]
        rw [hih, hev, happ, hpush]

/-- Witness for C3: a concrete trace of two input calls interleaved with two
render calls delivers each event in exactly one batch, in order. -/
theorem event_queue_fifo_witness :
    [[Event.PointerMoved (1, 2)], [Event.Scroll 2 3]].flatten ++
      ({ egui_new ⟨0, 0, 10, 10⟩ true with
          last_pointer_position := (1, 2) } : EguiInner).events =
      (egui_new ⟨0, 0, 10, 10⟩ true).events ++
        appendedAlong false (fun _ _ => "") (egui_new ⟨0, 0, 10, 10⟩ true)
          [Op.pointerMotion (1, 2), Op.render ⟨0, 0, 10, 10⟩,
           Op.pointerAxis 2 3, Op.render ⟨0, 0, 10, 10⟩] :=
  event_queue_fifo false (fun _ _ => "")
    [Op.pointerMotion (1, 2), Op.render ⟨0, 0, 10, 10⟩,
     Op.pointerAxis 2 3, Op.render ⟨0, 0, 10, 10⟩]
    (egui_new ⟨0, 0, 10, 10⟩ true)
    { egui_new ⟨0, 0, 10, 10⟩ true with last_pointer_position := (1, 2) }
    [[Event.PointerMoved (1, 2)], [Event.Scroll 2 3]]
    (by decide)

/-! ## Claim C4: focus loss releases every outstanding key -/

/-- A key-down delivery: the keysym alternatives, raw keycode, and modifier
state passed to `handle_keyboard`. -/
structure KeyDown where
  syms : List Nat
  code : Nat
  modifiers : ModifiersState

/-- A sequence of key-down deliveries (no matching key-ups). -/
def apply_downs (macos : Bool) (g : KbdLog → Nat → String) (st : EguiInner)
    (downs : List KeyDown) : EguiInner :=
  downs.foldl
    (fun s d => handle_keyboard macos g d.syms d.code true d.modifiers s) st

/-- The release loop appends one key-up event per entry with a recorded
logical key and one composition key-up feed per entry. -/
theorem foldl_leave_body (macos : Bool) :
    ∀ (keys : List (Option Key × Nat)) (s : EguiInner),
      keys.foldl (leave_body macos) s =
        { s with
          events := s.events ++ keys.filterMap
            (fun p => p.1.map (fun k =>
              Event.Key k false (convert_modifiers macos s.last_modifiers)))
          kbd := match s.kbd with
            | none => none
            | some log => some (log ++ keys.map (fun p => (p.2, false))) } := by
  intro keys
  induction keys with
  | nil =>
    intro s
    obtain ⟨p, lp, ar, lm, pr, f, ev, kbd⟩ := s
    cases kbd <;> simp
  | cons p rest ih =>
    intro s
    rw [List.foldl_cons, ih]
    cases hp1 : p.1 <;> cases hk : s.kbd <;>
      simp [leave_body, kbd_key_input, hp1, hk]

/-- Closed form of `keyboard_leave`. -/
theorem keyboard_leave_spec (macos : Bool) (st : EguiInner) :
    keyboard_leave macos st =
      { st with
        focused := false
        pressed := []
        events := st.events ++ st.pressed.filterMap
          (fun p => p.1.map (fun k =>
            Event.Key k false (convert_modifiers macos st.last_modifiers)))
        kbd := match st.kbd with
          | none => none
          | some log => some (log ++ st.pressed.map (fun p => (p.2, false))) } := by
  unfold keyboard_leave
  rw [foldl_leave_body]

/-- A key-down appends its tracking entry to the pressed list. -/
theorem pressed_handle_keyboard_down (macos : Bool)
    (g : KbdLog → Nat → String) (syms : List Nat) (code : Nat)
    (m : ModifiersState) (st : EguiInner) :
    (handle_keyboard macos g syms code true m st).pressed =
      st.pressed ++ [(convert_key syms, code)] := by
  unfold handle_keyboard
  cases hck : convert_key syms <;> cases hk : st.kbd <;> simp [hck, hk]

/-- A key transition feeds the composition engine exactly once. -/
theorem kbd_handle_keyboard (macos : Bool) (g : KbdLog → Nat → String)
    (syms : List Nat) (code : Nat) (pressed : Bool) (m : ModifiersState)
    (st : EguiInner) :
    (handle_keyboard macos g syms code pressed m st).kbd =
      match st.kbd with
      | none => none
      | some log => some (log ++ [(code, pressed)]) := by
  unfold handle_keyboard
  cases hck : convert_key syms <;> cases hk : st.kbd <;> cases pressed <;>
    simp [hck, hk]

/-- Pressed-list tracking across a sequence of key-downs. -/
theorem apply_downs_pressed (macos : Bool) (g : KbdLog → Nat → String) :
    ∀ (downs : List KeyDown) (st : EguiInner),
      (apply_downs macos g st downs).pressed =
        st.pressed ++ downs.map (fun d => (convert_key d.syms, d.code)) := by
  intro downs
  induction downs with
  | nil => intro st; simp [apply_downs]
  | cons d rest ih =>
    intro st
    show (apply_downs macos g
      (handle_keyboard macos g d.syms d.code true d.modifiers st) rest).pressed = _
    rw [ih, pressed_handle_keyboard_down]
    simp

/-- Composition-engine tracking across a sequence of key-downs. -/
theorem apply_downs_kbd (macos : Bool) (g : KbdLog → Nat → String) :
    ∀ (downs : List KeyDown) (st : EguiInner),
      (apply_downs macos g st downs).kbd =
        match st.kbd with
        | none => none
        | some log => some (log ++ downs.map (fun d => (d.code, true))) := by
  intro downs
  induction downs with
  | nil => intro st; cases hk : st.kbd <;> simp [apply_downs, hk]
  | cons d rest ih =>
    intro st
    show (apply_downs macos g
      (handle_keyboard macos g d.syms d.code true d.modifiers st) rest).kbd = _
    rw [ih, kbd_handle_keyboard]
    cases hk : st.kbd <;> simp [hk]

/-- The length of a `filterMap` counts the `isSome` hits. -/
theorem length_filterMap_isSome (f : α → Option β) :
    ∀ l : List α,
      (l.filterMap f).length = (l.filter (fun a => (f a).isSome)).length := by
  intro l
  induction l with
  | nil => rfl
  | cons a rest ih => cases h : f a <;> simp [h, ih]

/-- C4 counterexample: one key-down whose keysym is outside the translation
table (F1, 0xffbe) leaves one outstanding key-down, yet the subsequent focus
leave appends zero key-up events to the queue (while feeding one key-up to
the composition engine), so the synthesized key-up count does not equal the
outstanding key-down count. -/
theorem leave_unmapped_key_cex :
    (handle_keyboard false (fun _ _ => "") [0xffbe] 70 true
        ModifiersState.default (egui_new ⟨0, 0, 10, 10⟩ true)).pressed.length = 1 ∧
    (keyboard_leave false
        (handle_keyboard false (fun _ _ => "") [0xffbe] 70 true
          ModifiersState.default (egui_new ⟨0, 0, 10, 10⟩ true))).events.length =
      (handle_keyboard false (fun _ _ => "") [0xffbe] 70 true
        ModifiersState.default (egui_new ⟨0, 0, 10, 10⟩ true)).events.length ∧
    kbdLen (keyboard_leave false
        (handle_keyboard false (fun _ _ => "") [0xffbe] 70 true
          ModifiersState.default (egui_new ⟨0, 0, 10, 10⟩ true))).kbd =
      kbdLen (handle_keyboard false (fun _ _ => "") [0xffbe] 70 true
        ModifiersState.default (egui_new ⟨0, 0, 10, 10⟩ true)).kbd + 1 ∧
    (keyboard_leave false
        (handle_keyboard false (fun _ _ => "") [0xffbe] 70 true
          ModifiersState.default (egui_new ⟨0, 0, 10, 10⟩ true))).pressed = [] := by
  decide

/-- C4 (amended): after any sequence of key-down deliveries from a state with
no outstanding keys, a focus leave appends exactly one synthetic key-up event
per outstanding key-down whose keysyms translated to a logical key (not per
outstanding key-down), feeds exactly one composition key-up per outstanding
key-down when the composition engine is initialized (zero otherwise), and
empties the pressed-key bookkeeping. -/
theorem leave_releases_outstanding (macos : Bool) (g : KbdLog → Nat → String)
    (downs : List KeyDown) (st0 st1 st2 : EguiInner)
    (h0 : st0.pressed = [])
    (h1 : st1 = apply_downs macos g st0 downs)
    (h2 : st2 = keyboard_leave macos st1) :
    st2.pressed = [] ∧
    st2.events = st1.events ++ st1.pressed.filterMap
      (fun p => p.1.map (fun k =>
        Event.Key k false (convert_modifiers macos st1.last_modifiers))) ∧
    st2.events.length = st1.events.length +
      (downs.filter (fun d => (convert_key d.syms).isSome)).length ∧
    kbdLen st2.kbd = kbdLen st1.kbd +
      (if st0.kbd.isSome then downs.length else 0) := by
  subst h2
  have hps : st1.pressed = downs.map (fun d => (convert_key d.syms, d.code)) := by
    rw [h1, apply_downs_pressed, h0, List.nil_append]
  rw [keyboard_leave_spec]
  refine ⟨rfl, rfl, ?_, ?_⟩
  · simp only [List.length_append, hps, List.filterMap_map,
      length_filterMap_isSome]
    congr 2
    apply List.filter_congr
    intro d _
    cases hck : convert_key d.syms <;> simp [Function.comp, hck]
  · have hkd : st1.kbd =
        match st0.kbd with
        | none => none
        | some log => some (log ++ downs.map (fun d => (d.code, true))) := by
      rw [h1, apply_downs_kbd]
    cases hk0 : st0.kbd
    · rw [hk0] at hkd
      simp [hkd, kbdLen, hps]
    · rw [hk0] at hkd
      simp [hkd, kbdLen, hps]
      omega

/-- Witness for C4 (amended): two key-downs — one mapped (`a`), one unmapped
(`!`) — then a focus leave: one key-up event, two composition key-up feeds,
empty bookkeeping. -/
theorem leave_releases_outstanding_witness :
    (keyboard_leave false
      (apply_downs false (fun _ _ => "") (egui_new ⟨0, 0, 10, 10⟩ true)
        [⟨[0x61], 38, ModifiersState.default⟩,
         ⟨[0x21], 70, ModifiersState.default⟩])).pressed = [] ∧
    (keyboard_leave false
      (apply_downs false (fun _ _ => "") (egui_new ⟨0, 0, 10, 10⟩ true)
        [⟨[0x61], 38, ModifiersState.default⟩,
         ⟨[0x21], 70, ModifiersState.default⟩])).events.length =
      (apply_downs false (fun _ _ => "") (egui_new ⟨0, 0, 10, 10⟩ true)
        [⟨[0x61], 38, ModifiersState.default⟩,
         ⟨[0x21], 70, ModifiersState.default⟩]).events.length + 1 ∧
    kbdLen (keyboard_leave false
      (apply_downs false (fun _ _ => "") (egui_new ⟨0, 0, 10, 10⟩ true)
        [⟨[0x61], 38, ModifiersState.default⟩,
         ⟨[0x21], 70, ModifiersState.default⟩])).kbd =
      kbdLen (apply_downs false (fun _ _ => "") (egui_new ⟨0, 0, 10, 10⟩ true)
        [⟨[0x61], 38, ModifiersState.default⟩,
         ⟨[0x21], 70, ModifiersState.default⟩]).kbd + 2 := by
  have h := leave_releases_outstanding false (fun _ _ => "")
    [⟨[0x61], 38, ModifiersState.default⟩, ⟨[0x21], 70, ModifiersState.default⟩]
    (egui_new ⟨0, 0, 10, 10⟩ true) _ _ rfl rfl rfl
  refine ⟨h.1, ?_, ?_⟩
  · have := h.2.2.1
    simpa using this
  · have := h.2.2.2
    simpa using this

/-! ## Claims C5 and C10: skipping undamaged meshes, scissor clamping -/

/-- Anything in the output of a `mapOrFail` comes from some input element. -/
theorem mapOrFail_mem {f : α → Option β} :
    ∀ (l : List α) (out : List β), mapOrFail f l = some out →
      ∀ y ∈ out, ∃ x ∈ l, f x = some y := by
  intro l
  induction l with
  | nil =>
    intro out h y hy
    simp only [mapOrFail, Option.some_inj] at h
    subst h
    cases hy
  | cons a rest ih =>
    intro out h y hy
    simp only [mapOrFail] at h
    cases hfa : f a with
    | none => rw [hfa] at h; exact absurd h (by simp)
    | some b =>
      rw [hfa] at h
      simp only [Option.map_eq_some'] at h
      obtain ⟨bs, hbs, rfl⟩ := h
      rcases List.mem_cons.mp hy with rfl | hy
      · exact ⟨a, List.mem_cons_self a rest, hfa⟩
      · obtain ⟨x, hx, hfx⟩ := ih bs hbs y hy
        exact ⟨x, List.mem_cons_of_mem a hx, hfx⟩

/-- A primitive whose clip rectangle overlaps no damage rectangle in the list
it is painted against produces no draw at all. -/
theorem paint_prim_no_overlap (cache : List (Nat × TexEntry))
    (tr : IRect → IRect) (location : Int × Int) (sx sy : ℚ)
    (merged : List IRect) (cp : ClippedPrimitive)
    (h : ∀ d ∈ merged, (IRect.to_f64 d).overlaps
      (QRect.from_extemities cp.clip_min.1 cp.clip_min.2
        cp.clip_max.1 cp.clip_max.2) = false) :
    paint_prim cache tr location sx sy merged cp = some [] := by
  simp only [paint_prim]
  have hfil : (merged.map IRect.to_f64).filter
      (fun d => d.overlaps (QRect.from_extemities cp.clip_min.1 cp.clip_min.2
        cp.clip_max.1 cp.clip_max.2)) = [] := by
    apply List.filter_eq_nil_iff.mpr
    intro d' hd'
    obtain ⟨d, hd, rfl⟩ := List.mem_map.mp hd'
    simp [h d hd]
  rw [hfil]
  cases cp.primitive <;> simp [mapOrFail]

/-- C5: a clipped mesh whose clip rectangle overlaps none of the merged
damage rectangles is skipped without a single draw call — in particular a
mesh clipped to (0,0)–(10,10) against the sole damage rectangle
(20,20)–(30,30) issues no draw (not even a texture lookup: the cache is
empty and the managed id unknown, yet nothing panics). -/
theorem undamaged_mesh_skipped :
    (∀ (cache : List (Nat × TexEntry)) (tr : IRect → IRect)
        (location : Int × Int) (sx sy : ℚ) (merged : List IRect)
        (cp : ClippedPrimitive),
      (∀ d ∈ merged, (IRect.to_f64 d).overlaps
        (QRect.from_extemities cp.clip_min.1 cp.clip_min.2
          cp.clip_max.1 cp.clip_max.2) = false) →
      paint_prim cache tr location sx sy merged cp = some []) ∧
    paint_meshes [] id (0, 0) 1 1 [⟨20, 20, 10, 10⟩]
      [⟨(0, 0), (10, 10), Primitive.mesh ⟨TextureId.Managed 0, 3⟩⟩] =
      some [] := by
  constructor
  · exact paint_prim_no_overlap
  · have hm : merge_damage [⟨20, 20, 10, 10⟩] = [⟨20, 20, 10, 10⟩] := by
      decide
    have hp : paint_prim [] id (0, 0) 1 1 [⟨20, 20, 10, 10⟩]
        ⟨(0, 0), (10, 10), Primitive.mesh ⟨TextureId.Managed 0, 3⟩⟩ =
        some [] := by
      apply paint_prim_no_overlap
      intro d hd
      rcases List.mem_singleton.mp hd with rfl
      norm_num [IRect.to_f64, QRect.from_extemities, QRect.overlaps]
    simp only [paint_meshes, hm, mapOrFail, hp, Option.map_some']
    rfl

/-- Witness for C5's quantified part: the concrete undamaged mesh, via the
theorem's first conjunct. -/
theorem undamaged_mesh_skipped_witness :
    paint_prim [] id (0, 0) 1 1 [⟨20, 20, 10, 10⟩]
      ⟨(0, 0), (10, 10), Primitive.mesh ⟨TextureId.Managed 0, 3⟩⟩ =
      some [] :=
  undamaged_mesh_skipped.1 [] id (0, 0) 1 1 [⟨20, 20, 10, 10⟩]
    ⟨(0, 0), (10, 10), Primitive.mesh ⟨TextureId.Managed 0, 3⟩⟩
    (by
      intro d hd
      rcases List.mem_singleton.mp hd with rfl
      norm_num [IRect.to_f64, QRect.from_extemities, QRect.overlaps])

/-- C10: every scissor box `paint_meshes` passes to the GL scissor call has
all four components — x, y, width, height — clamped to at least zero,
whatever the transform, draw location, scale, damage and meshes are. -/
theorem scissor_box_clamped :
    ∀ (cache : List (Nat × TexEntry)) (tr : IRect → IRect)
      (location : Int × Int) (sx sy : ℚ) (damage : List IRect)
      (prims : List ClippedPrimitive) (out : List ScissoredDraw),
      paint_meshes cache tr location sx sy damage prims = some out →
      ∀ d ∈ out, 0 ≤ d.scissor.1 ∧ 0 ≤ d.scissor.2.1 ∧
        0 ≤ d.scissor.2.2.1 ∧ 0 ≤ d.scissor.2.2.2 := by
  intro cache tr location sx sy damage prims out h d hd
  simp only [paint_meshes, Option.map_eq_some'] at h
  obtain ⟨subs, hsubs, rfl⟩ := h
  obtain ⟨sub, hsub, hdsub⟩ := List.mem_flatten.mp hd
  obtain ⟨cp, _, hpp⟩ := mapOrFail_mem _ _ hsubs sub hsub
  obtain ⟨cmin, cmax, prim⟩ := cp
  cases prim with
  | mesh m =>
    simp only [paint_prim] at hpp
    obtain ⟨x, _, hfx⟩ := mapOrFail_mem _ _ hpp d hdsub
    simp only [Option.map_eq_some'] at hfx
    obtain ⟨gd, _, rfl⟩ := hfx
    simp only [scissor_of]
    exact ⟨le_max_right _ _, le_max_right _ _, le_max_right _ _,
      le_max_right _ _⟩
  | callback =>
    simp only [paint_prim] at hpp
    split at hpp
    · obtain rfl := Option.some_inj.mp hpp
      cases hdsub
    · exact absurd hpp (by simp)

/-- Witness for C10: a fully concrete paint — one mesh, one damage rectangle,
identity transform — produces one draw whose scissor components are all
nonnegative. -/
theorem scissor_box_clamped_witness :
    0 ≤ (ScissoredDraw.mk (0, 0, 10, 10) ⟨5, 3⟩).scissor.1 ∧
    0 ≤ (ScissoredDraw.mk (0, 0, 10, 10) ⟨5, 3⟩).scissor.2.1 ∧
    0 ≤ (ScissoredDraw.mk (0, 0, 10, 10) ⟨5, 3⟩).scissor.2.2.1 ∧
    0 ≤ (ScissoredDraw.mk (0, 0, 10, 10) ⟨5, 3⟩).scissor.2.2.2 := by
  have h : paint_meshes [(0, ⟨5, 8, 8⟩)] id (0, 0) 1 1 [⟨0, 0, 10, 10⟩]
      [⟨(0, 0), (10, 10), Primitive.mesh ⟨TextureId.Managed 0, 3⟩⟩] =
      some [ScissoredDraw.mk (0, 0, 10, 10) ⟨5, 3⟩] := by
    have hm : merge_damage [⟨0, 0, 10, 10⟩] = [⟨0, 0, 10, 10⟩] := by decide
    have hov : QRect.overlaps (IRect.to_f64 ⟨0, 0, 10, 10⟩)
        (QRect.from_extemities 0 0 10 10) = true := by
      norm_num [IRect.to_f64, QRect.from_extemities, QRect.overlaps]
    have hsc : scissor_of id (0, 0) 1 1 (QRect.from_extemities 0 0 10 10)
        (IRect.to_f64 ⟨0, 0, 10, 10⟩) = (0, 0, 10, 10) := by
      have hint : QRect.intersection (QRect.from_extemities 0 0 10 10)
          (IRect.to_f64 ⟨0, 0, 10, 10⟩) = some ⟨0, 0, 10, 10⟩ := by
        rw [QRect.intersection]
        norm_num [IRect.to_f64, QRect.from_extemities, QRect.overlaps]
      rw [scissor_of, hint]
      norm_num [QRect.to_logical, QRect.to_physical, QRect.to_i32_round]
    have hp : paint_prim [(0, ⟨5, 8, 8⟩)] id (0, 0) 1 1 [⟨0, 0, 10, 10⟩]
        ⟨(0, 0), (10, 10), Primitive.mesh ⟨TextureId.Managed 0, 3⟩⟩ =
        some [ScissoredDraw.mk (0, 0, 10, 10) ⟨5, 3⟩] := by
      simp only [paint_prim, List.map, List.filter, hov, mapOrFail,
        paint_mesh, lookupEntry, if_pos, Option.map_some', hsc]
    simp only [paint_meshes, hm, mapOrFail, hp, Option.map_some']
    rfl
  exact scissor_box_clamped [(0, ⟨5, 8, 8⟩)] id (0, 0) 1 1 [⟨0, 0, 10, 10⟩]
    [⟨(0, 0), (10, 10), Primitive.mesh ⟨TextureId.Managed 0, 3⟩⟩]
    [ScissoredDraw.mk (0, 0, 10, 10) ⟨5, 3⟩] h
    (ScissoredDraw.mk (0, 0, 10, 10) ⟨5, 3⟩) (by simp)

end SmithayEgui
